import Mathlib

/-!
Verification of the taciturn library (src/src/TacitPromise.ts): a Promise
subclass that threads a mutable context object alongside the value.

The embedding is denotational: a settled TacitPromise is its settled payload
(value or reason) together with the final state of its `contextRef` object.
Object identity of `contextRef` is modelled by a numeric id: every evaluation
of `{ ...initialContext }` in the constructor allocates a fresh object, which
we model by passing the freshly allocated id explicitly.
-/

namespace Taciturn

/-- JavaScript-ish runtime values, as far as the library manipulates them. -/
inductive JSVal where
  | num (n : Int)
  | str (s : String)
  | bool (b : Bool)
  | undefined
  | err (msg : String)
  | arr (elems : List JSVal)
  | obj (fields : List (String × JSVal))

/-- Field states of a context object (`Record<string, any>`): an insertion
list where the first binding of a key wins on lookup. -/
def Ctx : Type := List (String × JSVal)

/-- A context object: `contextRef` in the source. `id` models JS object
identity (each `{ ...initialContext }` allocates a fresh object), `fields`
its current field contents. -/
structure CtxObj where
  id : Nat
  fields : Ctx

/-- The settled state of a TacitPromise: the payload the underlying promise
wraps (`{ __value, __context }` or `{ __reason, __context }`), with the
context object `contextRef` of that promise. -/
inductive Settled where
  | fulfilled (v : JSVal) (ctx : CtxObj)
  | rejected (r : JSVal) (ctx : CtxObj)

/-- Context object attached to a settled TacitPromise. -/
def Settled.ctxObj : Settled → CtxObj
  | .fulfilled _ c => c
  | .rejected _ c => c

/-- Payload of a settled TacitPromise, context forgotten. -/
inductive Payload where
  | value (v : JSVal)
  | reason (r : JSVal)

/-- Payload of a settled TacitPromise. -/
def Settled.payload : Settled → Payload
  | .fulfilled v _ => .value v
  | .rejected r _ => .reason r

/-- What a handler evaluation produces, seen from `then`'s dispatch code:
`ret` is a plain (non-thenable) return value, `thrw` a synchronous throw
caught by the surrounding try/catch, and `thenableF`/`thenableR` a returned
thenable that eventually fulfills/rejects with a plain payload (a returned
TacitPromise is consumed through its own overridden `then`, which already
unwraps the tag before calling `resolve`/`reject`). -/
inductive HRes where
  | ret (v : JSVal)
  | thrw (e : JSVal)
  | thenableF (v : JSVal)
  | thenableR (r : JSVal)

/-- A handler `(payload, context) => result`: it reads the payload and the
current fields of the child's `contextRef`, may mutate those fields, and
produces a result.  The returned `Ctx` is the field state of `contextRef`
after the handler ran (mutations persist even when the handler throws). -/
def Handler : Type := JSVal → Ctx → HRes × Ctx

/-- Settlement of the child promise from the handler's result, mirroring the
dispatch in `then`: a plain return value or a fulfilled thenable resolves the
child, a synchronous throw or a rejected thenable rejects it; in every case
the child's own `contextRef` (fresh object `fid`, fields as mutated by the
handler) is what `wrappedResolve`/`wrappedReject` attach. -/
def settleHandler (res : HRes × Ctx) (fid : Nat) : Settled :=
  match res with
  | (.ret v, c) => .fulfilled v ⟨fid, c⟩
  | (.thrw e, c) => .rejected e ⟨fid, c⟩
  | (.thenableF v, c) => .fulfilled v ⟨fid, c⟩
  | (.thenableR r, c) => .rejected r ⟨fid, c⟩

/-- Semantics of `TacitPromise.then(onFulfilled?, onRejected?)` on a settled
receiver `p`.  The child constructor evaluates `{ ...this._context }`,
allocating a fresh context object (modelled by the fresh id `fid`); on
settlement of the receiver, `Object.assign(context, wrapped.__context)`
overlays the receiver's settled fields onto that copy — since the library
only ever adds or overwrites fields, the resulting field state equals the
receiver's settled field state.  A missing handler forwards the payload to
`resolve`/`reject` unchanged; a present handler runs under try/catch and is
dispatched by `settleHandler`. -/
def thenTP (p : Settled) (onF onR : Option Handler) (fid : Nat) : Settled :=
  match p with
  | .fulfilled v c =>
    match onF with
    | none => .fulfilled v ⟨fid, c.fields⟩
    | some h => settleHandler (h v c.fields) fid
  | .rejected r c =>
    match onR with
    | none => .rejected r ⟨fid, c.fields⟩
    | some h => settleHandler (h r c.fields) fid

/-- Semantics of `TacitPromise.begin(value, context)`: a promise immediately
fulfilled with `value`, its `contextRef` a fresh shallow copy of `context`. -/
def begin (v : JSVal) (c : Ctx) (cid : Nat) : Settled :=
  .fulfilled v ⟨cid, c⟩

/-- Semantics of `TacitPromise.create(initialContext)`: fulfilled with
`undefined`, fresh shallow copy of the initial context. -/
def create (c : Ctx) (cid : Nat) : Settled :=
  .fulfilled .undefined ⟨cid, c⟩

/-- The wrapped object `{ __value: value, __context: contextRef }` produced
by `wrappedResolve`, as the underlying plain promise sees it. -/
def wrapF (v : JSVal) (c : CtxObj) : JSVal :=
  .obj [("__value", v), ("__context", .obj c.fields)]

/-- The wrapped object `{ __reason: reason, __context: contextRef }` produced
by `wrappedReject`. -/
def wrapR (r : JSVal) (c : CtxObj) : JSVal :=
  .obj [("__reason", r), ("__context", .obj c.fields)]

/-- The outcome of a plain (non-Tacit) promise. -/
inductive PlainP where
  | res (v : JSVal)
  | rej (r : JSVal)

/-- JS property access with optional chaining, `w?.[k]`: field lookup on an
object, `undefined` on everything else. -/
def jsGet (w : JSVal) (k : String) : JSVal :=
  match w with
  | .obj fs => (fs.lookup k).getD .undefined
  | _ => .undefined

/-- Test `x === undefined`. -/
def JSVal.isUndefined : JSVal → Bool
  | .undefined => true
  | _ => false

/-- Semantics of `getValue()`: `super.then` on the underlying promise, so the
handlers see the wrapped payloads.  On fulfillment it returns
`wrapped.__value`; on rejection it throws `wrapped.__reason` when that is not
`undefined`, and otherwise throws the wrapped object itself. -/
def getValue (p : Settled) : PlainP :=
  match p with
  | .fulfilled v c => .res (jsGet (wrapF v c) "__value")
  | .rejected r c =>
    if (jsGet (wrapR r c) "__reason").isUndefined then .rej (wrapR r c)
    else .rej (jsGet (wrapR r c) "__reason")

/-- Semantics of `getContext()`: `super.then(wrapped => wrapped.__context)`
with no rejection handler, so a rejected receiver makes the returned plain
promise reject with the wrapped rejection object itself. -/
def getContext (p : Settled) : PlainP :=
  match p with
  | .fulfilled v c => .res (jsGet (wrapF v c) "__context")
  | .rejected r c => .rej (wrapR r c)

/-- Result of evaluating the body of an `async` handler: a returned value or
an exception escaping the body, each with the field state of the context
after the mutations the body performed. -/
inductive CallRes (α : Type) where
  | ok (a : α) (ctx : Ctx)
  | ex (e : JSVal) (ctx : Ctx)

/-- An `async (value, ctx) => ...` handler always hands `then` a thenable:
the promise for its body, fulfilled with the returned value or rejected with
the escaping exception. -/
def asyncHandler (body : JSVal → Ctx → CallRes JSVal) : Handler := fun v c =>
  match body v c with
  | .ok r c1 => (.thenableF r, c1)
  | .ex e c1 => (.thenableR e, c1)

/-- Body of the handler `when(predicate, fn)` passes to `then`: await the
predicate; when it is true, await `fn` and discard its result; always return
the original value. -/
def whenBody (pred : JSVal → Ctx → CallRes Bool) (fn : JSVal → Ctx → CallRes JSVal)
    (v : JSVal) (c : Ctx) : CallRes JSVal :=
  match pred v c with
  | .ex e c1 => .ex e c1
  | .ok b c1 =>
    if b then
      match fn v c1 with
      | .ex e c2 => .ex e c2
      | .ok _ c2 => .ok v c2
    else .ok v c1

/-- Semantics of `when(predicate, fn)`: `this.then(async (value, ctx) => ...)`. -/
def whenTP (p : Settled) (pred : JSVal → Ctx → CallRes Bool)
    (fn : JSVal → Ctx → CallRes JSVal) (fid : Nat) : Settled :=
  thenTP p (some (asyncHandler (whenBody pred fn))) none fid

/-- Test `Array.isArray(value)`. -/
def JSVal.isArr : JSVal → Bool
  | .arr _ => true
  | _ => false

/-- Body of the handler `filter(fn)` passes to `then`, paired with the list
of indices at which the predicate was invoked.  A non-array value throws the
type-mismatch error before any predicate call; on an array, `Promise.all`
starts `fn(item, i, ctx)` for every index, and `value.filter((_, i) =>
results[i])` keeps the elements whose slot settled true. -/
def filterBody (pred : JSVal → Nat → Ctx → Bool) (v : JSVal) (c : Ctx) :
    CallRes JSVal × List Nat :=
  match v with
  | .arr xs =>
    (.ok (.arr ((((xs.enum).filter (fun q =>
        ((xs.enum).map (fun q => pred q.2 q.1 c)).getD q.1 false))).map (fun q => q.2))) c,
     List.range xs.length)
  | _ => (.ex (.err "filter requires an array value") c, [])

/-- Semantics of `filter(fn)`: `this.then(async (value, ctx) => ...)`. -/
def filterTP (p : Settled) (pred : JSVal → Nat → Ctx → Bool) (fid : Nat) : Settled :=
  thenTP p (some (asyncHandler (fun v c => (filterBody pred v c).1))) none fid

/-- One slot write of `Promise.all`: when the invocation for index `i`
settles, its result lands in slot `i`. -/
def setSlot (s : Nat → Option JSVal) (i : Nat) (v : JSVal) : Nat → Option JSVal :=
  fun j => if j = i then some v else s j

/-- State of the `Promise.all` slots after the invocations settle in the
real-time order given by `order` (each entry names the index whose invocation
settles next). -/
def runAllSlots (res : Nat → JSVal) (order : List Nat) (s : Nat → Option JSVal) :
    Nat → Option JSVal :=
  order.foldl (fun s i => setSlot s i (res i)) s

/-- The array `Promise.all` fulfills with: the `n` slots read back in index
order once every invocation has settled. -/
def promiseAll (res : Nat → JSVal) (n : Nat) (order : List Nat) : List JSVal :=
  (List.range n).map (fun i => (runAllSlots res order (fun _ => none) i).getD .undefined)

/-- Body of the handler `mapcar(fn)` passes to `then`: a non-array value
throws the type-mismatch error; on an array, `Promise.all(value.map((item, i)
=> fn(item, i, ctx)))` with the invocations settling in real-time order
`order`. -/
def mapcarBody (fn : JSVal → Nat → Ctx → JSVal) (order : List Nat)
    (v : JSVal) (c : Ctx) : CallRes JSVal :=
  match v with
  | .arr xs => .ok (.arr (promiseAll (fun i => fn (xs.getD i .undefined) i c) xs.length order)) c
  | _ => .ex (.err "mapcar requires an array value") c

/-- Semantics of `mapcar(fn)`: `this.then(async (value, ctx) => ...)`. -/
def mapcarTP (p : Settled) (fn : JSVal → Nat → Ctx → JSVal) (order : List Nat)
    (fid : Nat) : Settled :=
  thenTP p (some (asyncHandler (mapcarBody fn order))) none fid

/-- Modelled from the spec: the concurrency-bounded sequence mapper
(`map(fn, { concurrency })`, spec section 4.3) is absent from the repository
snapshot — only its tests reference it — so its scheduler is modelled here
from the spec's words.  Scheduler state for one mapping call over an input of
length `n`: `cursor` is the next index to dispatch, `active` the indices of
the invocations currently in flight, in dispatch order. -/
structure MState where
  cursor : Nat
  active : List Nat
deriving DecidableEq, Repr

/-- Modelled from the spec: the dispatch loop of the bounded mapper — "while
`active < N` and unprocessed input remains, dispatch the next index,
incrementing both cursor and active count".  `fuel` bounds the recursion and
is always called with at least `n` remaining steps. -/
def dispatchFuel (N n : Nat) : Nat → MState → MState
  | 0, s => s
  | fuel + 1, s =>
    if s.active.length < N ∧ s.cursor < n then
      dispatchFuel N n fuel ⟨s.cursor + 1, s.active ++ [s.cursor]⟩
    else s

/-- Modelled from the spec: dispatch as many indices as the window allows. -/
def dispatch (N n : Nat) (s : MState) : MState :=
  dispatchFuel N n n s

/-- Modelled from the spec: the state right after the mapping call starts —
the initial dispatch from an empty window. -/
def initState (N n : Nat) : MState :=
  dispatch N n ⟨0, []⟩

/-- Modelled from the spec: "whenever any in-flight invocation settles ...
decrement active count, and immediately dispatch the next pending index if
one remains" — the transition when the invocation for index `i` settles. -/
def stepComplete (N n : Nat) (s : MState) (i : Nat) : MState :=
  dispatch N n ⟨s.cursor, s.active.erase i⟩

/-- A completion schedule is valid when every entry names an invocation that
is actually in flight at that moment; the schedule is how we model the
adversarial real-time completion order. -/
def validSched (N n : Nat) : MState → List Nat → Bool
  | _, [] => true
  | s, i :: rest => s.active.contains i && validSched N n (stepComplete N n s i) rest

/-- The largest number of simultaneously in-flight invocations observed along
a completion schedule. -/
def traceMaxActive (N n : Nat) : MState → List Nat → Nat
  | s, [] => s.active.length
  | s, i :: rest => max s.active.length (traceMaxActive N n (stepComplete N n s i) rest)

/-- Modelled from the spec: the `finally(fn)` combinator (spec section 4.2)
is absent from the repository snapshot — only its tests reference it.  It is
built on `then`: the fulfillment handler runs `fn(context)` and returns the
value unchanged, the exception of `fn` escaping. -/
def finallyHandlerF (fn : Ctx → CallRes JSVal) : Handler := fun v c =>
  match fn c with
  | .ok _ c1 => (.ret v, c1)
  | .ex e c1 => (.thrw e, c1)

/-- Modelled from the spec: the rejection handler of `finally(fn)` runs
`fn(context)` and re-raises the original reason, the exception of `fn`
superseding it. -/
def finallyHandlerR (fn : Ctx → CallRes JSVal) : Handler := fun r c =>
  match fn c with
  | .ok _ c1 => (.thrw r, c1)
  | .ex e c1 => (.thrw e, c1)

/-- Modelled from the spec: `finally(fn)` as the `then` of its two handlers. -/
def finallyTP (p : Settled) (fn : Ctx → CallRes JSVal) (fid : Nat) : Settled :=
  thenTP p (some (finallyHandlerF fn)) (some (finallyHandlerR fn)) fid

/-- Modelled from the spec: reference evaluator for `finally(fn)` that also
counts how many times `fn` was invoked, for the exactly-once part of its
contract. -/
def finallyRunCount (p : Settled) (fn : Ctx → CallRes JSVal) (fid : Nat) :
    Settled × Nat :=
  match p with
  | .fulfilled v c =>
    match fn c.fields with
    | .ok _ c1 => (.fulfilled v ⟨fid, c1⟩, 1)
    | .ex e c1 => (.rejected e ⟨fid, c1⟩, 1)
  | .rejected r c =>
    match fn c.fields with
    | .ok _ c1 => (.rejected r ⟨fid, c1⟩, 1)
    | .ex e c1 => (.rejected e ⟨fid, c1⟩, 1)

/-- Example caller-supplied predicate `v => v > 5` from the spec's `when`
example, used as concrete input in witnesses. -/
def exampleGT5 : JSVal → Ctx → CallRes Bool := fun v c =>
  .ok (match v with | .num k => decide (5 < k) | _ => false) c

/-- Example caller-supplied side effect `v => v * 2` from the spec's `when`
example; its return value differs from the passed-through value. -/
def exampleDouble : JSVal → Ctx → CallRes JSVal := fun v c =>
  .ok (match v with | .num k => .num (2 * k) | _ => .undefined) c

/-! Theorems. -/

/-- Helper: the child promise settled through a handler carries the freshly
allocated context object. -/
theorem settleHandler_ctx_id (res : HRes × Ctx) (fid : Nat) :
    (settleHandler res fid).ctxObj.id = fid := by
  obtain ⟨hr, c⟩ := res
  cases hr <;> rfl

/-- C4: for every future, `then` with a missing handler forwards the existing
payload unchanged: a fulfilled receiver with no `onFulfilled` fulfills the new
future with the same value, a rejected receiver with no `onRejected` rejects
it with the same reason (the context fields being carried over either way). -/
theorem c4_then_missing_handler_forwards (v r : JSVal) (c d : CtxObj)
    (onF onR : Option Handler) (fid : Nat) :
    thenTP (.fulfilled v c) none onR fid = .fulfilled v ⟨fid, c.fields⟩ ∧
    thenTP (.rejected r d) onF none fid = .rejected r ⟨fid, d.fields⟩ :=
  ⟨rfl, rfl⟩

/-- C4 witness: a fulfilled `42` passes through a handlerless `then`, and a
rejection with `Error("nope")` is re-raised by a `then` that only has a
fulfillment handler. -/
theorem c4_witness :
    thenTP (.fulfilled (.num 42) ⟨0, []⟩) none (some (fun r c => (.ret r, c))) 1
      = .fulfilled (.num 42) ⟨1, []⟩ ∧
    thenTP (.rejected (.err "nope") ⟨0, []⟩) (some (fun v c => (.ret v, c))) none 1
      = .rejected (.err "nope") ⟨1, []⟩ :=
  c4_then_missing_handler_forwards (.num 42) (.err "nope") ⟨0, []⟩ ⟨0, []⟩
    (some (fun v c => (.ret v, c))) (some (fun r c => (.ret r, c))) 1

/-- C5: a handler passed to `then` that throws synchronously makes the
resulting future reject with the thrown error as its reason, and the
rejection carries the context fields as mutated up to the point of failure,
on the fulfillment handler and on the rejection handler alike. -/
theorem c5_handler_throw_rejects_with_context (v r e f : JSVal) (c d : CtxObj)
    (hF hR : Handler) (onF onR : Option Handler) (cf cr : Ctx) (fid : Nat)
    (hthrowF : hF v c.fields = (.thrw e, cf))
    (hthrowR : hR r d.fields = (.thrw f, cr)) :
    thenTP (.fulfilled v c) (some hF) onR fid = .rejected e ⟨fid, cf⟩ ∧
    thenTP (.rejected r d) onF (some hR) fid = .rejected f ⟨fid, cr⟩ := by
  constructor
  · show settleHandler (hF v c.fields) fid = _
    rw [hthrowF]; rfl
  · show settleHandler (hR r d.fields) fid = _
    rw [hthrowR]; rfl

/-- C5 witness: a fulfillment handler that records a field and then throws
`Error("boom")`, and a rejection handler that throws `Error("worse")`; the
children reject with exactly those errors and the mutated context fields. -/
theorem c5_witness :
    thenTP (.fulfilled (.num 1) ⟨0, []⟩)
        (some (fun _ c => (.thrw (.err "boom"), ("at", .str "s1") :: c))) none 1
      = .rejected (.err "boom") ⟨1, [("at", .str "s1")]⟩ ∧
    thenTP (.rejected (.err "cause") ⟨0, []⟩)
        none (some (fun _ c => (.thrw (.err "worse"), c))) 1
      = .rejected (.err "worse") ⟨1, []⟩ :=
  c5_handler_throw_rejects_with_context (.num 1) (.err "cause") (.err "boom")
    (.err "worse") ⟨0, []⟩ ⟨0, []⟩ _ _ none none _ _ 1 rfl rfl

/-- C10: for a rejected future, `getContext` does not yield the context: the
plain promise it returns rejects, propagating the internal wrapped rejection
object, so no fulfillment with the context ever occurs. -/
theorem c10_getcontext_rejects (r : JSVal) (c : CtxObj) :
    getContext (.rejected r c) = .rej (wrapR r c) ∧
    ∀ v, getContext (.rejected r c) ≠ .res v :=
  ⟨rfl, fun _ h => PlainP.noConfusion h⟩

/-- C10 witness: a future rejected with `Error("db down")` makes `getContext`
reject with the wrapped object; in particular it never resolves with the
context fields. -/
theorem c10_witness :
    getContext (.rejected (.err "db down") ⟨0, [("userId", .num 123)]⟩)
      = .rej (wrapR (.err "db down") ⟨0, [("userId", .num 123)]⟩) ∧
    getContext (.rejected (.err "db down") ⟨0, [("userId", .num 123)]⟩)
      ≠ .res (.obj [("userId", .num 123)]) :=
  ⟨(c10_getcontext_rejects (.err "db down") ⟨0, [("userId", .num 123)]⟩).1,
   (c10_getcontext_rejects (.err "db down") ⟨0, [("userId", .num 123)]⟩).2 _⟩

/-- C1 counterexample: the context object instance is replaced across `then`.
In the chain `create({}).then(h)` where `h` writes `ctx.a = 1`, the child
stage's context object is the fresh allocation (id 1, not the parent's id 0),
the write is present in the child's context, but the parent stage's context —
a handle another stage could hold — never observes the field `a`. -/
theorem c1_counterexample :
    (thenTP (create [] 0) (some (fun v c => (.ret v, ("a", .num 1) :: c))) none 1).ctxObj.id ≠
      (create [] 0).ctxObj.id ∧
    ((thenTP (create [] 0) (some (fun v c => (.ret v, ("a", .num 1) :: c))) none 1).ctxObj.fields).lookup "a"
      = some (.num 1) ∧
    ((create [] 0).ctxObj.fields).lookup "a" = none :=
  ⟨by decide, rfl, rfl⟩

/-- C1 amended: `then` does not preserve the context object's identity — it
allocates a fresh context object for every stage (`{ ...this._context }`) and
seeds it from the receiver's settled fields, so field writes flow forward to
later stages (a handler's written fields are what the next stage's context is
seeded from, and a handlerless stage carries payload and fields through
unchanged), but stages do not share one instance. -/
theorem c1_amended (p : Settled) (onF onR : Option Handler) (fid : Nat)
    (v w : JSVal) (c : CtxObj) (h : Handler) (c1 : Ctx) (fid1 fid2 : Nat)
    (hwrite : h v c.fields = (.ret w, c1)) :
    (thenTP p onF onR fid).ctxObj.id = fid ∧
    (thenTP p none none fid).ctxObj.fields = p.ctxObj.fields ∧
    (thenTP p none none fid).payload = p.payload ∧
    (thenTP (thenTP (.fulfilled v c) (some h) none fid1) none none fid2).ctxObj.fields = c1 := by
  refine ⟨?_, ?_, ?_, ?_⟩
  · cases p with
    | fulfilled v c => cases onF with
      | none => rfl
      | some h => exact settleHandler_ctx_id (h v c.fields) fid
    | rejected r c => cases onR with
      | none => rfl
      | some h => exact settleHandler_ctx_id (h r c.fields) fid
  · cases p <;> rfl
  · cases p <;> rfl
  · show (thenTP (settleHandler (h v c.fields) fid1) none none fid2).ctxObj.fields = c1
    rw [hwrite]; rfl

/-- C1 amended witness: the concrete chain of the counterexample, replayed
through the amended statement. -/
theorem c1_amended_witness :
    (thenTP (create [] 0) (some (fun v c => (.ret v, ("a", .num 1) :: c))) none 1).ctxObj.id = 1 ∧
    (thenTP (create [] 0) none none 1).ctxObj.fields = (create [] 0).ctxObj.fields ∧
    (thenTP (create [] 0) none none 1).payload = (create [] 0).payload ∧
    (thenTP (thenTP (.fulfilled .undefined ⟨0, []⟩)
        (some (fun v c => (.ret v, ("a", .num 1) :: c))) none 1) none none 2).ctxObj.fields
      = [("a", .num 1)] :=
  c1_amended (create [] 0) (some (fun v c => (.ret v, ("a", .num 1) :: c))) none 1
    .undefined .undefined ⟨0, []⟩ (fun v c => (.ret v, ("a", .num 1) :: c)) [("a", .num 1)] 1 2 rfl

/-- C9 counterexample: when the settled reason is `undefined`, `getValue`
does not re-throw the original reason — the guard `wrapped?.__reason !==
undefined` fails and the internal wrapped object is thrown instead, which is
not the original reason. -/
theorem c9_counterexample :
    getValue (.rejected .undefined ⟨0, []⟩) = .rej (wrapR .undefined ⟨0, []⟩) ∧
    wrapR .undefined ⟨0, []⟩ ≠ .undefined :=
  ⟨rfl, fun h => JSVal.noConfusion h⟩

/-- C9 amended: `getValue` yields the settled value with the internal tag
removed on fulfillment, and on rejection re-throws exactly the original
settled reason for every reason other than `undefined`; for the reason
`undefined` it rejects with the internal wrapped object instead. -/
theorem c9_amended (v r : JSVal) (c d e : CtxObj) (hr : r.isUndefined = false) :
    getValue (.fulfilled v c) = .res v ∧
    getValue (.rejected r d) = .rej r ∧
    getValue (.rejected .undefined e) = .rej (wrapR .undefined e) := by
  refine ⟨rfl, ?_, rfl⟩
  show (if (jsGet (wrapR r d) "__reason").isUndefined then _ else _) = _
  have hj : jsGet (wrapR r d) "__reason" = r := rfl
  rw [hj, hr]
  rfl

/-- C9 amended witness: a fulfilled future yields its value, and the rejected
reason `Error("x")` is re-thrown as-is. -/
theorem c9_amended_witness :
    getValue (.fulfilled (.num 3) ⟨0, []⟩) = .res (.num 3) ∧
    getValue (.rejected (.err "x") ⟨0, []⟩) = .rej (.err "x") ∧
    getValue (.rejected .undefined ⟨0, []⟩) = .rej (wrapR .undefined ⟨0, []⟩) :=
  c9_amended (.num 3) (.err "x") ⟨0, []⟩ ⟨0, []⟩ ⟨0, []⟩ rfl

/-- C7: `when(predicate, fn)` fulfills with the original value whether the
predicate evaluated true or false, discarding `fn`'s return value even when
it differs from that value, while an exception in either callback rejects the
chain. -/
theorem c7_when_passes_value_through (v w e f : JSVal) (c : CtxObj)
    (pred : JSVal → Ctx → CallRes Bool) (fn : JSVal → Ctx → CallRes JSVal)
    (c1 c2 c3 c4 c5 c6 : Ctx) (fid : Nat) :
    (pred v c.fields = .ok true c1 → fn v c1 = .ok w c2 →
      whenTP (.fulfilled v c) pred fn fid = .fulfilled v ⟨fid, c2⟩) ∧
    (pred v c.fields = .ok false c3 →
      whenTP (.fulfilled v c) pred fn fid = .fulfilled v ⟨fid, c3⟩) ∧
    (pred v c.fields = .ex e c4 →
      whenTP (.fulfilled v c) pred fn fid = .rejected e ⟨fid, c4⟩) ∧
    (pred v c.fields = .ok true c5 → fn v c5 = .ex f c6 →
      whenTP (.fulfilled v c) pred fn fid = .rejected f ⟨fid, c6⟩) := by
  refine ⟨fun hp hf => ?_, fun hp => ?_, fun hp => ?_, fun hp hf => ?_⟩
  · simp [whenTP, thenTP, asyncHandler, whenBody, hp, hf, settleHandler]
  · simp [whenTP, thenTP, asyncHandler, whenBody, hp, settleHandler]
  · simp [whenTP, thenTP, asyncHandler, whenBody, hp, settleHandler]
  · simp [whenTP, thenTP, asyncHandler, whenBody, hp, hf, settleHandler]

/-- C7 witness: the spec's example `begin(10).when(v => v > 5, v => v * 2)`
resolves to `10` although the side-effect callback returned `20`, and with
value `3` the predicate is false and the value also passes through. -/
theorem c7_witness :
    whenTP (begin (.num 10) [] 0) exampleGT5 exampleDouble 1
      = .fulfilled (.num 10) ⟨1, []⟩ ∧
    whenTP (begin (.num 3) [] 0) exampleGT5 exampleDouble 1
      = .fulfilled (.num 3) ⟨1, []⟩ :=
  ⟨(c7_when_passes_value_through (.num 10) (.num 20) .undefined .undefined ⟨0, []⟩
      exampleGT5 exampleDouble [] [] [] [] [] [] 1).1 rfl rfl,
   (c7_when_passes_value_through (.num 3) .undefined .undefined .undefined ⟨0, []⟩
      exampleGT5 exampleDouble [] [] [] [] [] [] 1).2.1 rfl⟩

/-- Helper: the `Promise.all` results list of `filter` holds, at the slot of
each enumerated element, exactly that element's predicate result. -/
theorem filter_results_getD (xs : List JSVal) (c : Ctx)
    (pred : JSVal → Nat → Ctx → Bool) (q : Nat × JSVal) (hq : q ∈ xs.enum) :
    ((xs.enum).map (fun q => pred q.2 q.1 c)).getD q.1 false = pred q.2 q.1 c := by
  obtain ⟨i, x⟩ := q
  have hx : xs[i]? = some x := List.mk_mem_enum_iff_getElem?.mp hq
  have henum : (xs.enum)[i]? = some (i, x) := by
    rw [List.getElem?_enum]
    simp [hx]
  rw [List.getD_eq_getElem?_getD, List.getElem?_map, henum]
  rfl

/-- Helper: on an array, the body of `filter` keeps exactly the elements
whose predicate evaluated true, in their original order. -/
theorem filterBody_arr (pred : JSVal → Nat → Ctx → Bool) (xs : List JSVal) (c : Ctx) :
    (filterBody pred (.arr xs) c).1 =
      .ok (.arr (((xs.enum).filter (fun q => pred q.2 q.1 c)).map (fun q => q.2))) c := by
  have hcong : (xs.enum).filter
      (fun q => ((xs.enum).map (fun q => pred q.2 q.1 c)).getD q.1 false)
        = (xs.enum).filter (fun q => pred q.2 q.1 c) :=
    List.filter_congr (fun q hq => filter_results_getD xs c pred q hq)
  simp only [filterBody]
  rw [hcong]

/-- C6: `filter` on a non-array current value rejects with the type-mismatch
error while invoking no predicate (empty invocation trace), and on an array
it fulfills with exactly the elements whose predicate evaluated true, in
their original input order. -/
theorem c6_filter_semantics (v : JSVal) (c d : CtxObj)
    (pred : JSVal → Nat → Ctx → Bool) (xs : List JSVal) (fid : Nat)
    (hv : v.isArr = false) :
    filterTP (.fulfilled v c) pred fid
      = .rejected (.err "filter requires an array value") ⟨fid, c.fields⟩ ∧
    (filterBody pred v c.fields).2 = [] ∧
    filterTP (.fulfilled (.arr xs) d) pred fid
      = .fulfilled (.arr (((xs.enum).filter (fun q => pred q.2 q.1 d.fields)).map (fun q => q.2)))
          ⟨fid, d.fields⟩ := by
  refine ⟨?_, ?_, ?_⟩
  · cases v <;> first
      | rfl
      | simp [JSVal.isArr] at hv
  · cases v <;> first
      | rfl
      | simp [JSVal.isArr] at hv
  · have hb := filterBody_arr pred xs d.fields
    simp [filterTP, thenTP, asyncHandler, hb, settleHandler]

/-- C6 witness: the spec's example — `filter` over the number `42` rejects
with the type-mismatch error and runs no predicate — and over the array
`[1, 3]` with `v > 5`-style predicate `v > 2` it keeps `[3]` in order. -/
theorem c6_witness :
    filterTP (.fulfilled (.num 42) ⟨0, []⟩) (fun q _ c =>
        (exampleGT5 q c) matches .ok true _) 1
      = .rejected (.err "filter requires an array value") ⟨1, []⟩ ∧
    (filterBody (fun q _ c => (exampleGT5 q c) matches .ok true _) (.num 42) []).2 = [] ∧
    filterTP (.fulfilled (.arr [.num 4, .num 6]) ⟨0, []⟩)
        (fun q _ c => (exampleGT5 q c) matches .ok true _) 1
      = .fulfilled (.arr [.num 6]) ⟨1, []⟩ :=
  c6_filter_semantics (.num 42) ⟨0, []⟩ ⟨0, []⟩
    (fun q _ c => (exampleGT5 q c) matches .ok true _) [.num 4, .num 6] 1 rfl

/-- Helper: after all invocations in `order` have settled, slot `j` holds the
result for index `j` whenever `j`'s invocation settled, whatever the
real-time settlement order was. -/
theorem runAllSlots_eq (res : Nat → JSVal) (order : List Nat)
    (s : Nat → Option JSVal) (j : Nat) :
    runAllSlots res order s j = if j ∈ order then some (res j) else s j := by
  induction order generalizing s with
  | nil => simp [runAllSlots]
  | cons i rest ih =>
    show runAllSlots res rest (setSlot s i (res i)) j = _
    rw [ih]
    by_cases hjr : j ∈ rest
    · simp [hjr, List.mem_cons]
    · by_cases hji : j = i
      · subst hji
        simp [hjr, setSlot]
      · simp [hjr, hji, setSlot, List.mem_cons]

/-- Helper: `Promise.all` over `n` invocations yields the results in index
order for every settlement order that settles each index once. -/
theorem promiseAll_perm (res : Nat → JSVal) (n : Nat) (order : List Nat)
    (h : order.Perm (List.range n)) :
    promiseAll res n order = (List.range n).map res := by
  unfold promiseAll
  refine List.map_congr_left ?_
  intro i hi
  have hmem : i ∈ order := by
    rw [h.mem_iff]
    exact hi
  rw [runAllSlots_eq, if_pos hmem]
  rfl

/-- C2: for every array input and element transform, `mapcar` fulfills with
an array of the same length whose slot `i` is the settled result of
`fn(input[i], i, context)`, for every real-time order in which the
per-element invocations settle. -/
theorem c2_mapcar_order_independent (xs : List JSVal) (c : CtxObj)
    (fn : JSVal → Nat → Ctx → JSVal) (order : List Nat) (fid : Nat)
    (hperm : order.Perm (List.range xs.length)) :
    mapcarTP (.fulfilled (.arr xs) c) fn order fid
      = .fulfilled (.arr ((List.range xs.length).map (fun i => fn (xs.getD i .undefined) i c.fields)))
          ⟨fid, c.fields⟩ ∧
    ((List.range xs.length).map (fun i => fn (xs.getD i .undefined) i c.fields)).length
      = xs.length ∧
    ∀ i, i < xs.length →
      ((List.range xs.length).map (fun i => fn (xs.getD i .undefined) i c.fields)).getD i .undefined
        = fn (xs.getD i .undefined) i c.fields := by
  refine ⟨?_, by simp, ?_⟩
  · have hall := promiseAll_perm (fun i => fn (xs.getD i .undefined) i c.fields) xs.length order hperm
    simp only [mapcarTP, thenTP, asyncHandler, mapcarBody, settleHandler]
    rw [hall]
  · intro i hi
    rw [List.getD_eq_getElem?_getD, List.getElem?_map]
    simp [List.getElem?_range, hi]

/-- C2 witness: doubling `[1, 2, 3]` with the settlement order `[2, 0, 1]`
(a later-dispatched invocation settling first) still yields `[2, 4, 6]` with
length `3`. -/
theorem c2_witness :
    mapcarTP (.fulfilled (.arr [.num 1, .num 2, .num 3]) ⟨0, []⟩)
        (fun (q : JSVal) _ _ => match q with | .num k => JSVal.num (2 * k) | _ => JSVal.undefined) [2, 0, 1] 1
      = .fulfilled (.arr [.num 2, .num 4, .num 6]) ⟨1, []⟩ ∧
    (3 : Nat) = ([.num 1, .num 2, .num 3] : List JSVal).length :=
  ⟨(c2_mapcar_order_independent [.num 1, .num 2, .num 3] ⟨0, []⟩
      (fun (q : JSVal) _ _ => match q with | .num k => JSVal.num (2 * k) | _ => JSVal.undefined) [2, 0, 1] 1
      (by decide)).1,
   ((c2_mapcar_order_independent [.num 1, .num 2, .num 3] ⟨0, []⟩
      (fun (q : JSVal) _ _ => match q with | .num k => JSVal.num (2 * k) | _ => JSVal.undefined) [2, 0, 1] 1
      (by decide)).2.1).symm⟩

/-- C8: `finally(fn)` — built on `then` — behaves as exactly one invocation
of `fn` on the settled context on both settlement branches: its composed
`then` semantics agree with the single-call reference evaluator whose call
count is one, the original value or rejection passes through unchanged when
`fn` returns normally, and an exception raised by `fn` supersedes the
original outcome on both branches. -/
theorem c8_finally_once_passthrough (p : Settled) (fn : Ctx → CallRes JSVal)
    (fid : Nat) (v r w1 w2 e1 e2 : JSVal) (c d : CtxObj) (c1 c2 c3 c4 : Ctx) :
    (finallyRunCount p fn fid).1 = finallyTP p fn fid ∧
    (finallyRunCount p fn fid).2 = 1 ∧
    (fn c.fields = .ok w1 c1 →
      finallyTP (.fulfilled v c) fn fid = .fulfilled v ⟨fid, c1⟩) ∧
    (fn d.fields = .ok w2 c2 →
      finallyTP (.rejected r d) fn fid = .rejected r ⟨fid, c2⟩) ∧
    (fn c.fields = .ex e1 c3 →
      finallyTP (.fulfilled v c) fn fid = .rejected e1 ⟨fid, c3⟩) ∧
    (fn d.fields = .ex e2 c4 →
      finallyTP (.rejected r d) fn fid = .rejected e2 ⟨fid, c4⟩) := by
  refine ⟨?_, ?_, fun h => ?_, fun h => ?_, fun h => ?_, fun h => ?_⟩
  · cases p with
    | fulfilled v c =>
      rcases hc : fn c.fields with ⟨w, c1⟩ | ⟨e, c1⟩ <;>
        simp [finallyRunCount, finallyTP, thenTP, finallyHandlerF, settleHandler, hc]
    | rejected r c =>
      rcases hc : fn c.fields with ⟨w, c1⟩ | ⟨e, c1⟩ <;>
        simp [finallyRunCount, finallyTP, thenTP, finallyHandlerR, settleHandler, hc]
  · cases p with
    | fulfilled v c => rcases hc : fn c.fields with _ | _ <;> simp [finallyRunCount, hc]
    | rejected r c => rcases hc : fn c.fields with _ | _ <;> simp [finallyRunCount, hc]
  · simp [finallyTP, thenTP, finallyHandlerF, settleHandler, h]
  · simp [finallyTP, thenTP, finallyHandlerR, settleHandler, h]
  · simp [finallyTP, thenTP, finallyHandlerF, settleHandler, h]
  · simp [finallyTP, thenTP, finallyHandlerR, settleHandler, h]

/-- C8 witness: the spec's test — `begin(42).then(() => { throw Error('x')
}).finally(fn)` rejects with `'x'`, `fn` ran exactly once, and on the success
path `begin(42).finally(fn)` passes `42` through. -/
theorem c8_witness :
    finallyTP (thenTP (begin (.num 42) [] 0)
        (some (fun _ c => (.thrw (.err "x"), c))) none 1)
        (fun c => .ok .undefined (("cleaned", .bool true) :: c)) 2
      = .rejected (.err "x") ⟨2, [("cleaned", .bool true)]⟩ ∧
    (finallyRunCount (thenTP (begin (.num 42) [] 0)
        (some (fun _ c => (.thrw (.err "x"), c))) none 1)
        (fun c => .ok .undefined (("cleaned", .bool true) :: c)) 2).2 = 1 ∧
    finallyTP (begin (.num 42) [] 0) (fun c => .ok .undefined c) 3
      = .fulfilled (.num 42) ⟨3, []⟩ :=
  ⟨(c8_finally_once_passthrough
      (thenTP (begin (.num 42) [] 0) (some (fun _ c => (.thrw (.err "x"), c))) none 1)
      (fun c => .ok .undefined (("cleaned", .bool true) :: c)) 2
      .undefined (.err "x") .undefined .undefined .undefined .undefined ⟨1, []⟩ ⟨1, []⟩
      [] [("cleaned", .bool true)] [] []).2.2.2.1 rfl,
   (c8_finally_once_passthrough
      (thenTP (begin (.num 42) [] 0) (some (fun _ c => (.thrw (.err "x"), c))) none 1)
      (fun c => .ok .undefined (("cleaned", .bool true) :: c)) 2
      .undefined .undefined .undefined .undefined .undefined .undefined ⟨0, []⟩ ⟨0, []⟩ [] [] [] []).2.1,
   (c8_finally_once_passthrough (begin (.num 42) [] 0) (fun c => .ok .undefined c) 3
      (.num 42) .undefined .undefined .undefined .undefined .undefined ⟨0, []⟩ ⟨0, []⟩ [] [] [] []).2.2.1 rfl⟩

/-- Helper: the dispatch loop never grows the window beyond `N`. -/
theorem dispatchFuel_length_le (N n fuel : Nat) (s : MState)
    (h : s.active.length ≤ N) :
    (dispatchFuel N n fuel s).active.length ≤ N := by
  induction fuel generalizing s with
  | zero => exact h
  | succ fuel ih =>
    unfold dispatchFuel
    split
    · next hc =>
      refine ih ⟨s.cursor + 1, s.active ++ [s.cursor]⟩ ?_
      have := hc.1
      simp only [List.length_append, List.length_singleton]
      omega
    · exact h

/-- Helper: the dispatch loop never shrinks the window. -/
theorem dispatchFuel_length_mono (N n fuel : Nat) (s : MState) :
    s.active.length ≤ (dispatchFuel N n fuel s).active.length := by
  induction fuel generalizing s with
  | zero => exact Nat.le_refl _
  | succ fuel ih =>
    unfold dispatchFuel
    split
    · next hc =>
      refine Nat.le_trans ?_ (ih ⟨s.cursor + 1, s.active ++ [s.cursor]⟩)
      simp
    · exact Nat.le_refl _

/-- Helper: a completion step keeps the window within `N`. -/
theorem stepComplete_length_le (N n : Nat) (s : MState) (i : Nat)
    (h : s.active.length ≤ N) :
    (stepComplete N n s i).active.length ≤ N :=
  dispatchFuel_length_le N n n ⟨s.cursor, s.active.erase i⟩
    (Nat.le_trans (s.active.erase_sublist i).length_le h)

/-- Helper: along any completion schedule the window stays within `N`. -/
theorem traceMaxActive_le (N n : Nat) (sched : List Nat) :
    ∀ s : MState, s.active.length ≤ N → traceMaxActive N n s sched ≤ N := by
  induction sched with
  | nil => intro s h; exact h
  | cons i rest ih =>
    intro s h
    unfold traceMaxActive
    exact max_le h (ih (stepComplete N n s i) (stepComplete_length_le N n s i h))

/-- Helper: with a positive window and non-empty input, the initial dispatch
puts at least one invocation in flight. -/
theorem initState_pos (N n : Nat) (hN : 1 ≤ N) (hn : 1 ≤ n) :
    1 ≤ (initState N n).active.length := by
  obtain ⟨m, rfl⟩ : ∃ m, n = m + 1 := ⟨n - 1, by omega⟩
  show 1 ≤ (dispatchFuel N (m + 1) (m + 1) ⟨0, []⟩).active.length
  unfold dispatchFuel
  rw [if_pos ⟨by simpa using hN, by simp⟩]
  show 1 ≤ (dispatchFuel N (m + 1) m ⟨1, [0]⟩).active.length
  exact Nat.le_trans (by simp) (dispatchFuel_length_mono N (m + 1) m ⟨1, [0]⟩)

/-- Helper: the dispatch loop stops at once when the window is full or the
input is exhausted. -/
theorem dispatchFuel_stop (N n fuel : Nat) (s : MState)
    (h : ¬(s.active.length < N ∧ s.cursor < n)) :
    dispatchFuel N n fuel s = s := by
  cases fuel with
  | zero => rfl
  | succ fuel => unfold dispatchFuel; rw [if_neg h]

/-- The invariant of the window-1 scheduler after `k` completions: the next
index is the cursor minus one, exactly index `k` is in flight while input
remains, and the cursor sits one past it. -/
def seqInv (n k : Nat) (s : MState) : Prop :=
  s.cursor = min (k + 1) n ∧ s.active = if k < n then [k] else []

/-- Helper: the initial dispatch with window 1 establishes the invariant. -/
theorem seqInv_init (n : Nat) : seqInv n 0 (initState 1 n) := by
  cases n with
  | zero =>
    constructor <;> rfl
  | succ m =>
    show seqInv (m + 1) 0 (dispatchFuel 1 (m + 1) (m + 1) ⟨0, []⟩)
    unfold dispatchFuel
    rw [if_pos ⟨by simp, by simp⟩]
    show seqInv (m + 1) 0 (dispatchFuel 1 (m + 1) m ⟨1, [0]⟩)
    rw [dispatchFuel_stop 1 (m + 1) m ⟨1, [0]⟩ (by simp)]
    exact ⟨by simp, by rw [if_pos (by omega)]⟩

/-- Helper: with window 1 a valid completion must settle index `k`, and the
resulting state satisfies the invariant for `k + 1`. -/
theorem seqInv_step (n k : Nat) (s : MState) (i : Nat) (hs : seqInv n k s)
    (hi : s.active.contains i = true) :
    i = k ∧ k < n ∧ seqInv n (k + 1) (stepComplete 1 n s i) := by
  obtain ⟨hcur, hact⟩ := hs
  have hmem : i ∈ s.active := by simpa using hi
  by_cases hk : k < n
  · rw [hact, if_pos hk] at hmem
    have hik : i = k := by simpa using hmem
    refine ⟨hik, hk, ?_⟩
    rw [hik]
    show seqInv n (k + 1) (dispatch 1 n ⟨s.cursor, s.active.erase k⟩)
    rw [hact, if_pos hk, List.erase_cons_head, hcur, Nat.min_eq_left (by omega)]
    by_cases hk1 : k + 1 < n
    · obtain ⟨m, rfl⟩ : ∃ m, n = m + 1 := ⟨n - 1, by omega⟩
      show seqInv (m + 1) (k + 1) (dispatchFuel 1 (m + 1) (m + 1) ⟨k + 1, []⟩)
      unfold dispatchFuel
      rw [if_pos ⟨by simp, by simpa using hk1⟩]
      show seqInv (m + 1) (k + 1) (dispatchFuel 1 (m + 1) m ⟨k + 2, [k + 1]⟩)
      rw [dispatchFuel_stop 1 (m + 1) m ⟨k + 2, [k + 1]⟩ (by simp)]
      exact ⟨by simp; omega, by rw [if_pos hk1]⟩
    · show seqInv n (k + 1) (dispatchFuel 1 n n ⟨k + 1, []⟩)
      rw [dispatchFuel_stop 1 n n ⟨k + 1, []⟩ (by simp; omega)]
      exact ⟨by simp; omega, by rw [if_neg hk1]⟩
  · rw [hact, if_neg hk] at hmem
    simp at hmem

/-- Helper: with window 1, a valid schedule completes the indices strictly in
input order — invocation `k + 1` starts only after invocation `k` has fully
settled. -/
theorem seqInv_sched (n : Nat) (sched : List Nat) :
    ∀ k s, seqInv n k s → validSched 1 n s sched = true →
      sched = List.range' k sched.length := by
  induction sched with
  | nil => intro k s _ _; rfl
  | cons i rest ih =>
    intro k s hs hv
    unfold validSched at hv
    rw [Bool.and_eq_true] at hv
    obtain ⟨hik, _, hnext⟩ := seqInv_step n k s i hs hv.1
    subst hik
    have hrest := ih (i + 1) (stepComplete 1 n s i) hnext hv.2
    show i :: rest = List.range' i (rest.length + 1)
    rw [List.range'_succ i rest.length 1, ← hrest]

/-- Helper: an unbounded window (`N = n`) dispatches every index at once. -/
theorem dispatchFuel_all (N n : Nat) (fuel : Nat) (s : MState)
    (hc : s.cursor ≤ n) (hf : n - s.cursor ≤ fuel)
    (hl : s.active.length + (n - s.cursor) ≤ N) :
    dispatchFuel N n fuel s = ⟨n, s.active ++ List.range' s.cursor (n - s.cursor)⟩ := by
  induction fuel generalizing s with
  | zero =>
    have : s.cursor = n := by omega
    obtain ⟨cur, act⟩ := s
    simp only at this
    subst this
    simp [dispatchFuel]
  | succ fuel ih =>
    by_cases hend : s.cursor = n
    · rw [dispatchFuel_stop N n (fuel + 1) s (by omega)]
      obtain ⟨cur, act⟩ := s
      simp only at hend
      subst hend
      simp
    · have hlt : s.cursor < n := by omega
      have hN : s.active.length < N := by omega
      unfold dispatchFuel
      rw [if_pos ⟨hN, hlt⟩]
      rw [ih ⟨s.cursor + 1, s.active ++ [s.cursor]⟩
        (by show s.cursor + 1 ≤ n; omega)
        (by show n - (s.cursor + 1) ≤ fuel; omega)
        (by show (s.active ++ [s.cursor]).length + (n - (s.cursor + 1)) ≤ N; simp; omega)]
      have hsplit : n - s.cursor = (n - (s.cursor + 1)) + 1 := by omega
      rw [hsplit, List.range'_succ s.cursor (n - (s.cursor + 1)) 1]
      simp

/-- C3 (spec-modelled): with `concurrency = N ≥ 1` the bounded mapper keeps
at most `N` invocations simultaneously in flight along every valid completion
schedule, at least one is in flight for non-empty input, `concurrency = 1`
forces the completions into strict input order (each invocation fully settles
before the next is dispatched), and an unbounded window dispatches every
index immediately. -/
theorem c3_bounded_concurrency (N n : Nat) (sched : List Nat) (hN : 1 ≤ N) :
    traceMaxActive N n (initState N n) sched ≤ N ∧
    (1 ≤ n → 1 ≤ traceMaxActive N n (initState N n) sched) ∧
    (N = 1 → validSched N n (initState N n) sched = true →
      sched = List.range sched.length) ∧
    (initState n n).active = List.range n := by
  refine ⟨?_, ?_, ?_, ?_⟩
  · exact traceMaxActive_le N n sched (initState N n)
      (dispatchFuel_length_le N n n ⟨0, []⟩ (by simp))
  · intro hn
    have hpos := initState_pos N n hN hn
    cases sched with
    | nil => exact hpos
    | cons i rest =>
      exact Nat.le_trans hpos (le_max_left _ _)
  · intro h1 hv
    subst h1
    have hs := seqInv_sched n sched 0 (initState 1 n) (seqInv_init n) hv
    rw [List.range_eq_range' sched.length]
    exact hs
  · show (dispatchFuel n n n ⟨0, []⟩).active = List.range n
    rw [dispatchFuel_all n n n ⟨0, []⟩ (by show (0 : Nat) ≤ n; omega)
      (by show n - 0 ≤ n; omega) (by show ([] : List Nat).length + (n - 0) ≤ n; simp)]
    show List.range' 0 (n - 0) = List.range n
    rw [List.range_eq_range' n]
    simp

/-- C3 witness: window 1 over two inputs with the only valid schedule
`[0, 1]` — the trace maximum is exactly 1, positive, the schedule is the
strict input order, and the unbounded initial dispatch holds both indices. -/
theorem c3_witness :
    traceMaxActive 1 2 (initState 1 2) [0, 1] ≤ 1 ∧
    1 ≤ traceMaxActive 1 2 (initState 1 2) [0, 1] ∧
    ([0, 1] : List Nat) = List.range 2 ∧
    (initState 2 2).active = List.range 2 := by
  obtain ⟨h1, h2, h3, h4⟩ := c3_bounded_concurrency 1 2 [0, 1] (by decide)
  exact ⟨h1, h2 (by decide), h3 rfl (by decide), h4⟩

end Taciturn


